import Mathlib

/-!
Shallow embedding of the E_video upload service (three near-duplicate
variants: `server.js` = variant A, and the two files concatenated in
`src/unnamed/part_000` = variants B and C).  Strings are modelled as
`List Char`; JavaScript `String.prototype.replace` with a global
single-character pattern is modelled by `replaceChar`; `split(" ")` by
`splitSp`; `Array.prototype.join` by `joinWith`.
-/

/-- JavaScript `text.replace(/c/g, r)` for a single-character pattern `c`
and replacement string `r`, applied over a `List Char`. -/
def replaceChar (c : Char) (r : List Char) : List Char → List Char
  | [] => []
  | x :: rest => (if x = c then r else [x]) ++ replaceChar c r rest

/-- JavaScript `text.split(" ")`: splits on every single space; the empty
string yields one empty token. -/
def splitSp : List Char → List (List Char)
  | [] => [[]]
  | c :: rest =>
    match splitSp rest with
    | [] => [[]]
    | w :: ws => if c = ' ' then [] :: w :: ws else (c :: w) :: ws

/-- JavaScript `arr.join(sep)` for a single-character separator. -/
def joinWith (sep : Char) : List (List Char) → List Char
  | [] => []
  | [l] => l
  | l :: l' :: t => l ++ sep :: joinWith sep (l' :: t)

/-- Loop of `wrapText` in `server.js` (variant A, lines 34-41): the guard
is `(currentLine + " " + words[i]).length <= maxLength`. -/
def wrapLoopA (maxLength : Nat) : List (List Char) → List Char → List (List Char)
  | [], cur => [cur]
  | w :: ws, cur =>
    if (cur ++ [' '] ++ w).length ≤ maxLength then wrapLoopA maxLength ws (cur ++ [' '] ++ w)
    else cur :: wrapLoopA maxLength ws w

/-- Loop of `wrapText` in the `part_000` variants (B lines 33-40, C lines
212-219): the guard is `currentLine.length + words[i].length + 1 <= maxLength`. -/
def wrapLoopB (maxLength : Nat) : List (List Char) → List Char → List (List Char)
  | [], cur => [cur]
  | w :: ws, cur =>
    if cur.length + w.length + 1 ≤ maxLength then wrapLoopB maxLength ws (cur ++ [' '] ++ w)
    else cur :: wrapLoopB maxLength ws w

/-- Modelled from the spec: the wrap rule stated in section 4.1, a token is
appended iff `len(currentLine) + 1 + len(token) <= maxLineLength`. -/
def wrapLoopSpec (maxLength : Nat) : List (List Char) → List Char → List (List Char)
  | [], cur => [cur]
  | w :: ws, cur =>
    if cur.length + 1 + w.length ≤ maxLength then wrapLoopSpec maxLength ws (cur ++ [' '] ++ w)
    else cur :: wrapLoopSpec maxLength ws w

/-- `wrapText` of `server.js` (variant A, lines 29-44; default width 30). -/
def wrapTextA (maxLength : Nat) (text : List Char) : List Char :=
  match splitSp text with
  | [] => []
  | w :: ws => joinWith '\n' (wrapLoopA maxLength ws w)

/-- `wrapText` of the `part_000` variants (B lines 28-43 with default width 50,
C lines 207-222 with default width 30). -/
def wrapTextB (maxLength : Nat) (text : List Char) : List Char :=
  match splitSp text with
  | [] => []
  | w :: ws => joinWith '\n' (wrapLoopB maxLength ws w)

/-- Modelled from the spec: `wrap(text, maxLineLength)` of section 4.1
built on the spec's append rule. -/
def wrapTextSpec (maxLength : Nat) (text : List Char) : List Char :=
  match splitSp text with
  | [] => []
  | w :: ws => joinWith '\n' (wrapLoopSpec maxLength ws w)

/-- `escapeText` of `server.js` (variant A, lines 46-54): escapes backslash,
colon, comma, period, single quote and newline, in that order. -/
def escapeTextA (l : List Char) : List Char :=
  replaceChar '\n' ['\\', 'n']
    (replaceChar '\'' ['\\', '\'']
      (replaceChar '.' ['\\', '.']
        (replaceChar ',' ['\\', ',']
          (replaceChar ':' ['\\', ':']
            (replaceChar '\\' ['\\', '\\'] l)))))

/-- Replacement chain inside `escapeText` of the first `part_000` variant
(B, lines 46-49): escapes backslash, colon and single quote only. -/
def escBodyB (l : List Char) : List Char :=
  replaceChar '\'' ['\\', '\'']
    (replaceChar ':' ['\\', ':']
      (replaceChar '\\' ['\\', '\\'] l))

/-- `escapeText` of the first `part_000` variant (B, lines 45-50): the
template literal wraps the replaced text in single quotes; newline is not
substituted. -/
def escapeTextB (l : List Char) : List Char :=
  '\'' :: (escBodyB l ++ ['\''])

/-- `escapeText` of the second `part_000` variant (C, lines 224-230):
escapes backslash, colon, single quote and newline, in that order. -/
def escapeTextC (l : List Char) : List Char :=
  replaceChar '\n' ['\\', 'n']
    (replaceChar '\'' ['\\', '\'']
      (replaceChar ':' ['\\', ':']
        (replaceChar '\\' ['\\', '\\'] l)))

/-- Net per-character effect of `escapeTextA`, stated character by character. -/
def escCharA (x : Char) : List Char :=
  if x = '\\' then ['\\', '\\']
  else if x = ':' then ['\\', ':']
  else if x = ',' then ['\\', ',']
  else if x = '.' then ['\\', '.']
  else if x = '\'' then ['\\', '\'']
  else if x = '\n' then ['\\', 'n']
  else [x]

/-- Net per-character effect of `escapeTextC`, stated character by character. -/
def escCharC (x : Char) : List Char :=
  if x = '\\' then ['\\', '\\']
  else if x = ':' then ['\\', ':']
  else if x = '\'' then ['\\', '\'']
  else if x = '\n' then ['\\', 'n']
  else [x]

/-- Net per-character effect of `escBodyB`, stated character by character. -/
def escCharB (x : Char) : List Char :=
  if x = '\\' then ['\\', '\\']
  else if x = ':' then ['\\', ':']
  else if x = '\'' then ['\\', '\'']
  else [x]

/-- Scan of an escaped string: every backslash must start a two-character
escape pair, and no bare colon or single quote may occur.  This decides the
spec's invariant that the formatted block contains no unescaped backslash,
colon or quote. -/
def wellEscaped : List Char → Bool
  | [] => true
  | c :: rest =>
    if c = '\\' then
      match rest with
      | [] => false
      | _ :: rest2 => wellEscaped rest2
    else if c = ':' then false
    else if c = '\'' then false
    else wellEscaped rest

/-- Decoding of a single escape pair by the downstream consumer: the pair
backslash-`n` denotes a line feed, every other pair denotes its second
character. -/
def unescDecode (c : Char) : Char :=
  if c = 'n' then '\n' else c

/-- Modelled from the spec: the intended consumer's unescaping, which
interprets each backslash-introduced pair back to its source character and
passes every other character through. -/
def unescape : List Char → List Char
  | [] => []
  | [c] => [c]
  | c :: d :: rest =>
    if c = '\\' then unescDecode d :: unescape rest
    else c :: unescape (d :: rest)

/- ---------------------------------------------------------------- -/
/- Helper lemmas. -/

theorem replaceChar_nil (c : Char) (r : List Char) : replaceChar c r [] = [] := rfl

theorem replaceChar_append (c : Char) (r : List Char) (a b : List Char) :
    replaceChar c r (a ++ b) = replaceChar c r a ++ replaceChar c r b := by
  induction a with
  | nil => simp [replaceChar]
  | cons x xs ih => simp [replaceChar, ih]

theorem escapeTextA_append (a b : List Char) :
    escapeTextA (a ++ b) = escapeTextA a ++ escapeTextA b := by
  simp [escapeTextA, replaceChar_append]

theorem escapeTextC_append (a b : List Char) :
    escapeTextC (a ++ b) = escapeTextC a ++ escapeTextC b := by
  simp [escapeTextC, replaceChar_append]

theorem escBodyB_append (a b : List Char) :
    escBodyB (a ++ b) = escBodyB a ++ escBodyB b := by
  simp [escBodyB, replaceChar_append]

theorem escapeTextA_cons (x : Char) (l : List Char) :
    escapeTextA (x :: l) = escCharA x ++ escapeTextA l := by
  have h : x :: l = [x] ++ l := rfl
  rw [h, escapeTextA_append]
  congr 1
  by_cases h1 : x = '\\'
  · subst h1; decide
  by_cases h2 : x = ':'
  · subst h2; decide
  by_cases h3 : x = ','
  · subst h3; decide
  by_cases h4 : x = '.'
  · subst h4; decide
  by_cases h5 : x = '\''
  · subst h5; decide
  by_cases h6 : x = '\n'
  · subst h6; decide
  simp [escapeTextA, escCharA, replaceChar, h1, h2, h3, h4, h5, h6]

theorem escapeTextC_cons (x : Char) (l : List Char) :
    escapeTextC (x :: l) = escCharC x ++ escapeTextC l := by
  have h : x :: l = [x] ++ l := rfl
  rw [h, escapeTextC_append]
  congr 1
  by_cases h1 : x = '\\'
  · subst h1; decide
  by_cases h2 : x = ':'
  · subst h2; decide
  by_cases h5 : x = '\''
  · subst h5; decide
  by_cases h6 : x = '\n'
  · subst h6; decide
  simp [escapeTextC, escCharC, replaceChar, h1, h2, h5, h6]

theorem escBodyB_cons (x : Char) (l : List Char) :
    escBodyB (x :: l) = escCharB x ++ escBodyB l := by
  have h : x :: l = [x] ++ l := rfl
  rw [h, escBodyB_append]
  congr 1
  by_cases h1 : x = '\\'
  · subst h1; decide
  by_cases h2 : x = ':'
  · subst h2; decide
  by_cases h5 : x = '\''
  · subst h5; decide
  simp [escBodyB, escCharB, replaceChar, h1, h2, h5]

theorem wellEscaped_pair (y : Char) (l : List Char) :
    wellEscaped ('\\' :: y :: l) = wellEscaped l := by
  simp [wellEscaped]

theorem wellEscaped_plain (x : Char) (l : List Char)
    (h1 : x ≠ '\\') (h2 : x ≠ ':') (h3 : x ≠ '\'') :
    wellEscaped (x :: l) = wellEscaped l := by
  rw [wellEscaped.eq_def]
  simp [h1, h2, h3]

theorem wellEscaped_escapeTextA (l : List Char) : wellEscaped (escapeTextA l) = true := by
  induction l with
  | nil => decide
  | cons x l ih =>
    rw [escapeTextA_cons]
    unfold escCharA
    split_ifs with h1 h2 h3 h4 h5 h6
    · rw [List.cons_append, List.singleton_append, wellEscaped_pair]; exact ih
    · rw [List.cons_append, List.singleton_append, wellEscaped_pair]; exact ih
    · rw [List.cons_append, List.singleton_append, wellEscaped_pair]; exact ih
    · rw [List.cons_append, List.singleton_append, wellEscaped_pair]; exact ih
    · rw [List.cons_append, List.singleton_append, wellEscaped_pair]; exact ih
    · rw [List.cons_append, List.singleton_append, wellEscaped_pair]; exact ih
    · rw [List.singleton_append, wellEscaped_plain x _ h1 h2 h5]; exact ih

theorem wellEscaped_escapeTextC (l : List Char) : wellEscaped (escapeTextC l) = true := by
  induction l with
  | nil => decide
  | cons x l ih =>
    rw [escapeTextC_cons]
    unfold escCharC
    split_ifs with h1 h2 h5 h6
    · rw [List.cons_append, List.singleton_append, wellEscaped_pair]; exact ih
    · rw [List.cons_append, List.singleton_append, wellEscaped_pair]; exact ih
    · rw [List.cons_append, List.singleton_append, wellEscaped_pair]; exact ih
    · rw [List.cons_append, List.singleton_append, wellEscaped_pair]; exact ih
    · rw [List.singleton_append, wellEscaped_plain x _ h1 h2 h5]; exact ih

theorem wellEscaped_escBodyB (l : List Char) : wellEscaped (escBodyB l) = true := by
  induction l with
  | nil => decide
  | cons x l ih =>
    rw [escBodyB_cons]
    unfold escCharB
    split_ifs with h1 h2 h5
    · rw [List.cons_append, List.singleton_append, wellEscaped_pair]; exact ih
    · rw [List.cons_append, List.singleton_append, wellEscaped_pair]; exact ih
    · rw [List.cons_append, List.singleton_append, wellEscaped_pair]; exact ih
    · rw [List.singleton_append, wellEscaped_plain x _ h1 h2 h5]; exact ih

theorem wrapLoopA_eq_wrapLoopB (maxLength : Nat) (ws : List (List Char)) (cur : List Char) :
    wrapLoopA maxLength ws cur = wrapLoopB maxLength ws cur := by
  induction ws generalizing cur with
  | nil => rfl
  | cons w ws ih =>
    have hlen : (cur ++ [' '] ++ w).length = cur.length + w.length + 1 := by
      simp [List.length_append]; omega
    rw [wrapLoopA, wrapLoopB, hlen]
    by_cases h : cur.length + w.length + 1 ≤ maxLength
    · rw [if_pos h, if_pos h, ih]
    · rw [if_neg h, if_neg h, ih]

theorem wrapLoopB_eq_wrapLoopSpec (maxLength : Nat) (ws : List (List Char)) (cur : List Char) :
    wrapLoopB maxLength ws cur = wrapLoopSpec maxLength ws cur := by
  induction ws generalizing cur with
  | nil => rfl
  | cons w ws ih =>
    have hc : cur.length + w.length + 1 = cur.length + 1 + w.length := by omega
    rw [wrapLoopB, wrapLoopSpec, hc]
    by_cases h : cur.length + 1 + w.length ≤ maxLength
    · rw [if_pos h, if_pos h, ih]
    · rw [if_neg h, if_neg h, ih]

theorem wrapTextA_eq_wrapTextB (maxLength : Nat) (text : List Char) :
    wrapTextA maxLength text = wrapTextB maxLength text := by
  rw [wrapTextA, wrapTextB]
  cases splitSp text with
  | nil => rfl
  | cons w ws => exact congrArg (joinWith '\n') (wrapLoopA_eq_wrapLoopB maxLength ws w)

theorem wrapTextB_eq_wrapTextSpec (maxLength : Nat) (text : List Char) :
    wrapTextB maxLength text = wrapTextSpec maxLength text := by
  rw [wrapTextB, wrapTextSpec]
  cases splitSp text with
  | nil => rfl
  | cons w ws => exact congrArg (joinWith '\n') (wrapLoopB_eq_wrapLoopSpec maxLength ws w)

theorem splitSp_ne_nil (l : List Char) : splitSp l ≠ [] := by
  cases l with
  | nil => simp [splitSp]
  | cons c rest =>
    rw [splitSp]
    cases splitSp rest with
    | nil => simp
    | cons w ws =>
      by_cases h : c = ' ' <;> simp [h]

theorem joinWith_cons_cons (sep : Char) (l l' : List Char) (t : List (List Char)) :
    joinWith sep (l :: l' :: t) = l ++ sep :: joinWith sep (l' :: t) := rfl

theorem joinWith_cons_of_ne_nil (sep : Char) (l : List Char) (t : List (List Char))
    (h : t ≠ []) : joinWith sep (l :: t) = l ++ sep :: joinWith sep t := by
  cases t with
  | nil => exact absurd rfl h
  | cons l' t' => rfl

theorem joinWith_merge (sep : Char) (t : List (List Char)) (a b : List Char) :
    joinWith sep ((a ++ sep :: b) :: t) = a ++ sep :: joinWith sep (b :: t) := by
  cases t with
  | nil => rfl
  | cons c t' =>
    rw [joinWith_cons_cons, joinWith_cons_cons]
    simp [List.append_assoc]

theorem joinWith_splitSp (l : List Char) : joinWith ' ' (splitSp l) = l := by
  induction l with
  | nil => rfl
  | cons c rest ih =>
    rw [splitSp]
    cases hs : splitSp rest with
    | nil => exact absurd hs (splitSp_ne_nil rest)
    | cons w ws =>
      rw [hs] at ih
      show joinWith ' ' (if c = ' ' then [] :: w :: ws else (c :: w) :: ws) = c :: rest
      by_cases hc : c = ' '
      · subst hc
        rw [if_pos rfl, joinWith_cons_cons, List.nil_append, ih]
      · rw [if_neg hc]
        cases ws with
        | nil => exact congrArg (List.cons c) ih
        | cons v ws' =>
          rw [joinWith_cons_cons] at ih
          rw [joinWith_cons_cons, List.cons_append, ih]

theorem wrapLoopB_ne_nil (maxLength : Nat) (ws : List (List Char)) (cur : List Char) :
    wrapLoopB maxLength ws cur ≠ [] := by
  induction ws generalizing cur with
  | nil => simp [wrapLoopB]
  | cons w ws ih =>
    rw [wrapLoopB]
    by_cases h : cur.length + w.length + 1 ≤ maxLength
    · rw [if_pos h]; exact ih _
    · rw [if_neg h]; simp

theorem joinWith_head_le (sep : Char) (w : List Char) (ws : List (List Char)) :
    w.length ≤ (joinWith sep (w :: ws)).length := by
  cases ws with
  | nil => exact Nat.le_refl _
  | cons v ws' =>
    rw [joinWith_cons_cons]
    simp [List.length_append]

theorem joinWith_shift (sep : Char) (cur w : List Char) (ws : List (List Char)) :
    joinWith sep ((cur ++ [sep] ++ w) :: ws) = joinWith sep (cur :: w :: ws) := by
  have h : cur ++ [sep] ++ w = cur ++ sep :: w := by simp
  rw [h, joinWith_merge, joinWith_cons_cons]

theorem wrapLoopB_fits (maxLength : Nat) (ws : List (List Char)) (cur : List Char)
    (h : (joinWith ' ' (cur :: ws)).length ≤ maxLength) :
    wrapLoopB maxLength ws cur = [joinWith ' ' (cur :: ws)] := by
  induction ws generalizing cur with
  | nil => rfl
  | cons w ws ih =>
    have hw : w.length ≤ (joinWith ' ' (w :: ws)).length := joinWith_head_le ' ' w ws
    have hlen : (joinWith ' ' (cur :: w :: ws)).length
        = cur.length + 1 + (joinWith ' ' (w :: ws)).length := by
      rw [joinWith_cons_cons]
      simp [List.length_append]
      omega
    have hcond : cur.length + w.length + 1 ≤ maxLength := by
      rw [hlen] at h; omega
    rw [wrapLoopB, if_pos hcond]
    have hrec : (joinWith ' ' ((cur ++ [' '] ++ w) :: ws)).length ≤ maxLength := by
      rw [joinWith_shift]; exact h
    rw [ih _ hrec, joinWith_shift]

theorem unescape_cons_plain (x : Char) (l : List Char) (h : x ≠ '\\') :
    unescape (x :: l) = x :: unescape l := by
  cases l with
  | nil => rfl
  | cons d rest => simp [unescape, h]

theorem unescape_pair (y : Char) (r : List Char) :
    unescape ('\\' :: y :: r) = unescDecode y :: unescape r := by
  simp [unescape]

theorem unescape_escapeTextA (l : List Char) : unescape (escapeTextA l) = l := by
  induction l with
  | nil => rfl
  | cons x l ih =>
    rw [escapeTextA_cons]
    unfold escCharA
    split_ifs with h1 h2 h3 h4 h5 h6
    · subst h1
      rw [List.cons_append, List.singleton_append, unescape_pair,
        show unescDecode '\\' = '\\' from by decide, ih]
    · subst h2
      rw [List.cons_append, List.singleton_append, unescape_pair,
        show unescDecode ':' = ':' from by decide, ih]
    · subst h3
      rw [List.cons_append, List.singleton_append, unescape_pair,
        show unescDecode ',' = ',' from by decide, ih]
    · subst h4
      rw [List.cons_append, List.singleton_append, unescape_pair,
        show unescDecode '.' = '.' from by decide, ih]
    · subst h5
      rw [List.cons_append, List.singleton_append, unescape_pair,
        show unescDecode '\'' = '\'' from by decide, ih]
    · subst h6
      rw [List.cons_append, List.singleton_append, unescape_pair,
        show unescDecode 'n' = '\n' from by decide, ih]
    · rw [List.singleton_append, unescape_cons_plain x _ h1, ih]

theorem unescape_escapeTextC (l : List Char) : unescape (escapeTextC l) = l := by
  induction l with
  | nil => rfl
  | cons x l ih =>
    rw [escapeTextC_cons]
    unfold escCharC
    split_ifs with h1 h2 h5 h6
    · subst h1
      rw [List.cons_append, List.singleton_append, unescape_pair,
        show unescDecode '\\' = '\\' from by decide, ih]
    · subst h2
      rw [List.cons_append, List.singleton_append, unescape_pair,
        show unescDecode ':' = ':' from by decide, ih]
    · subst h5
      rw [List.cons_append, List.singleton_append, unescape_pair,
        show unescDecode '\'' = '\'' from by decide, ih]
    · subst h6
      rw [List.cons_append, List.singleton_append, unescape_pair,
        show unescDecode 'n' = '\n' from by decide, ih]
    · rw [List.singleton_append, unescape_cons_plain x _ h1, ih]

/-- Grouping view of the wrap loop: the same greedy decisions as
`wrapLoopB`, but each output line is kept as the list of tokens placed on
it rather than as their space-join. -/
def wrapGroupsLoop (maxLength : Nat) : List (List Char) → List (List Char) → List (List (List Char))
  | [], curg => [curg]
  | w :: ws, curg =>
    if (joinWith ' ' curg).length + w.length + 1 ≤ maxLength
    then wrapGroupsLoop maxLength ws (curg ++ [w])
    else curg :: wrapGroupsLoop maxLength ws [w]

theorem joinWith_snoc (sep : Char) (t : List (List Char)) (w : List Char) (h : t ≠ []) :
    joinWith sep (t ++ [w]) = joinWith sep t ++ sep :: w := by
  induction t with
  | nil => exact absurd rfl h
  | cons a t' ih =>
    cases t' with
    | nil => rfl
    | cons b t'' =>
      rw [List.cons_append, joinWith_cons_of_ne_nil sep a _ (by simp), ih (by simp),
        joinWith_cons_cons]
      simp [List.append_assoc]

theorem wrapLoopB_eq_groups (maxLength : Nat) (ws : List (List Char))
    (curg : List (List Char)) (h : curg ≠ []) :
    wrapLoopB maxLength ws (joinWith ' ' curg) = (wrapGroupsLoop maxLength ws curg).map (joinWith ' ') := by
  induction ws generalizing curg with
  | nil => rfl
  | cons w ws ih =>
    rw [wrapLoopB, wrapGroupsLoop]
    by_cases hc : (joinWith ' ' curg).length + w.length + 1 ≤ maxLength
    · rw [if_pos hc, if_pos hc]
      have hsnoc : joinWith ' ' curg ++ [' '] ++ w = joinWith ' ' (curg ++ [w]) := by
        rw [joinWith_snoc ' ' curg w h]
        simp
      rw [hsnoc, ih (curg ++ [w]) (by simp)]
    · rw [if_neg hc, if_neg hc, List.map_cons]
      have hw : (w : List Char) = joinWith ' ' [w] := rfl
      rw [show wrapLoopB maxLength ws w = wrapLoopB maxLength ws (joinWith ' ' [w]) from rfl,
        ih [w] (by simp)]

theorem wrapGroupsLoop_flatten (maxLength : Nat) (ws : List (List Char))
    (curg : List (List Char)) :
    (wrapGroupsLoop maxLength ws curg).flatten = curg ++ ws := by
  induction ws generalizing curg with
  | nil => simp [wrapGroupsLoop]
  | cons w ws ih =>
    rw [wrapGroupsLoop]
    by_cases hc : (joinWith ' ' curg).length + w.length + 1 ≤ maxLength
    · rw [if_pos hc, ih]
      simp
    · rw [if_neg hc, List.flatten_cons, ih]
      simp

theorem wrapLoopB_take (maxLength : Nat) (ws : List (List Char)) (cur : List Char) :
    (joinWith '\n' (wrapLoopB maxLength ws cur)).take cur.length = cur := by
  induction ws generalizing cur with
  | nil => exact List.take_length cur
  | cons w ws ih =>
    rw [wrapLoopB]
    by_cases hc : cur.length + w.length + 1 ≤ maxLength
    · rw [if_pos hc]
      have hmin : cur.length ⊓ (cur ++ [' '] ++ w).length = cur.length := by
        refine inf_eq_left.mpr ?_
        simp [List.length_append]
      have h1 : (joinWith '\n' (wrapLoopB maxLength ws (cur ++ [' '] ++ w))).take cur.length
          = ((joinWith '\n' (wrapLoopB maxLength ws (cur ++ [' '] ++ w))).take
              (cur ++ [' '] ++ w).length).take cur.length := by
        rw [List.take_take, hmin]
      rw [h1, ih, List.append_assoc, List.take_left]
    · rw [if_neg hc,
        joinWith_cons_of_ne_nil '\n' cur _ (wrapLoopB_ne_nil maxLength ws w),
        List.take_left]

theorem replaceChar_not_mem (c : Char) (r : List Char) (l : List Char) (h : c ∉ l) :
    replaceChar c r l = l := by
  induction l with
  | nil => rfl
  | cons x xs ih =>
    have hx : x ≠ c := fun he => h (he ▸ List.mem_cons_self x xs)
    rw [replaceChar, if_neg hx, ih (fun hm => h (List.mem_cons_of_mem x hm))]
    rfl

theorem replace_joinNl (lines : List (List Char)) (h : ∀ line ∈ lines, '\n' ∉ line) :
    replaceChar '\n' [' '] (joinWith '\n' lines) = joinWith ' ' lines := by
  induction lines with
  | nil => rfl
  | cons l rest ih =>
    cases rest with
    | nil =>
      exact replaceChar_not_mem '\n' [' '] l (h l (List.mem_cons_self l []))
    | cons l' t =>
      rw [joinWith_cons_cons, replaceChar_append, replaceChar,
        if_pos rfl,
        replaceChar_not_mem '\n' [' '] l (h l (List.mem_cons_self l _)),
        ih (fun x hx => h x (List.mem_cons_of_mem l hx)),
        joinWith_cons_cons]
      rfl

theorem joinSpace_wrapLoopB (maxLength : Nat) (ws : List (List Char)) (cur : List Char) :
    joinWith ' ' (wrapLoopB maxLength ws cur) = joinWith ' ' (cur :: ws) := by
  induction ws generalizing cur with
  | nil => rfl
  | cons w ws ih =>
    rw [wrapLoopB]
    by_cases hc : cur.length + w.length + 1 ≤ maxLength
    · rw [if_pos hc, ih, joinWith_shift]
    · rw [if_neg hc,
        joinWith_cons_of_ne_nil ' ' cur _ (wrapLoopB_ne_nil maxLength ws w),
        ih, joinWith_cons_cons]

theorem splitSp_cons_eq (c : Char) (rest w : List Char) (ws : List (List Char))
    (hs : splitSp rest = w :: ws) :
    splitSp (c :: rest) = if c = ' ' then [] :: w :: ws else (c :: w) :: ws := by
  rw [splitSp, hs]

theorem splitSp_chars (l : List Char) : ∀ w ∈ splitSp l, ∀ c ∈ w, c ∈ l := by
  induction l with
  | nil =>
    intro w hw c hc
    simp [splitSp] at hw
    subst hw
    simp at hc
  | cons a rest ih =>
    intro w hw c hc
    obtain ⟨w0, ws0, hs⟩ : ∃ w0 ws0, splitSp rest = w0 :: ws0 := by
      cases h' : splitSp rest with
      | nil => exact absurd h' (splitSp_ne_nil rest)
      | cons x y => exact ⟨x, y, rfl⟩
    rw [splitSp_cons_eq a rest w0 ws0 hs] at hw
    by_cases ha : a = ' '
    · rw [if_pos ha] at hw
      rcases List.mem_cons.mp hw with h1 | h2
      · subst h1; simp at hc
      · have : c ∈ rest := ih w (hs ▸ h2) c hc
        exact List.mem_cons_of_mem a this
    · rw [if_neg ha] at hw
      rcases List.mem_cons.mp hw with h1 | h2
      · subst h1
        rcases List.mem_cons.mp hc with h3 | h4
        · subst h3; exact List.mem_cons_self c rest
        · have : c ∈ rest := ih w0 (hs ▸ List.mem_cons_self w0 ws0) c h4
          exact List.mem_cons_of_mem a this
      · have hw0 : w ∈ splitSp rest := hs ▸ List.mem_cons_of_mem w0 h2
        exact List.mem_cons_of_mem a (ih w hw0 c hc)

theorem wrapLoopB_lines_no_nl (maxLength : Nat) (ws : List (List Char)) (cur : List Char)
    (h1 : '\n' ∉ cur) (h2 : ∀ w ∈ ws, '\n' ∉ w) :
    ∀ line ∈ wrapLoopB maxLength ws cur, '\n' ∉ line := by
  induction ws generalizing cur with
  | nil =>
    intro line hl
    simp [wrapLoopB] at hl
    subst hl
    exact h1
  | cons w ws ih =>
    intro line hl
    rw [wrapLoopB] at hl
    by_cases hc : cur.length + w.length + 1 ≤ maxLength
    · rw [if_pos hc] at hl
      refine ih (cur ++ [' '] ++ w) ?_ (fun v hv => h2 v (List.mem_cons_of_mem w hv)) line hl
      intro hm
      rcases List.mem_append.mp hm with hm' | hm'
      · rcases List.mem_append.mp hm' with hm'' | hm''
        · exact h1 hm''
        · simp at hm''
      · exact h2 w (List.mem_cons_self w ws) hm'
    · rw [if_neg hc] at hl
      rcases List.mem_cons.mp hl with he | hm
      · subst he; exact h1
      · exact ih w (h2 w (List.mem_cons_self w ws)) (fun v hv => h2 v (List.mem_cons_of_mem w hv)) line hm

/-- Text block built in `server.js` `processVideoWithBackground` (variant A,
lines 61-63): each labeled field is wrapped at width 30, the four wrapped
blocks are joined with newlines in the order name, mobile, address, degree,
the whole is escaped, and the template literal wraps it in single quotes. -/
def buildTextBlockA (doctorName degree mobile address : List Char) : List Char :=
  ['\''] ++
    escapeTextA
      (wrapTextA 30 ("Doctor: ".toList ++ doctorName) ++ ['\n'] ++
        wrapTextA 30 ("Mobile: ".toList ++ mobile) ++ ['\n'] ++
        wrapTextA 30 ("Address: ".toList ++ address) ++ ['\n'] ++
        wrapTextA 30 ("Degree: ".toList ++ degree)) ++ ['\'']

/-- Text block built in the first `part_000` variant (B, lines 57-62):
wrap width 50; `escapeText` itself supplies the surrounding quotes. -/
def buildTextBlockB (doctorName degree mobile address : List Char) : List Char :=
  escapeTextB
    (wrapTextB 50 ("Doctor: ".toList ++ doctorName) ++ ['\n'] ++
      wrapTextB 50 ("Mobile: ".toList ++ mobile) ++ ['\n'] ++
      wrapTextB 50 ("Address: ".toList ++ address) ++ ['\n'] ++
      wrapTextB 50 ("Degree: ".toList ++ degree))

/-- Text block built in the second `part_000` variant (C, lines 237-243):
wrap width 30; the escaped concatenation is used directly, with no
surrounding single quotes. -/
def buildTextBlockC (doctorName degree mobile address : List Char) : List Char :=
  escapeTextC
    (wrapTextB 30 ("Doctor: ".toList ++ doctorName) ++ ['\n'] ++
      wrapTextB 30 ("Mobile: ".toList ++ mobile) ++ ['\n'] ++
      wrapTextB 30 ("Address: ".toList ++ address) ++ ['\n'] ++
      wrapTextB 30 ("Degree: ".toList ++ degree))

/-- Modelled from the spec (section 4.1, `buildTextBlock`): label each
field, wrap each labeled line independently at the configured width, and
join the four wrapped blocks with line feeds in the order name, mobile,
address, degree. -/
def specTextBlockCore (width : Nat) (doctorName degree mobile address : List Char) : List Char :=
  wrapTextSpec width ("Doctor: ".toList ++ doctorName) ++ ['\n'] ++
    wrapTextSpec width ("Mobile: ".toList ++ mobile) ++ ['\n'] ++
    wrapTextSpec width ("Address: ".toList ++ address) ++ ['\n'] ++
    wrapTextSpec width ("Degree: ".toList ++ degree)

/-- Output options passed by `server.js` (variant A, line 91). -/
def outputOptionsA : List String := ["-map", "[final]", "-map", "1:a?", "-c:a", "copy", "-y"]

/-- Output options passed by the first `part_000` variant (B, line 101). -/
def outputOptionsB : List String := ["-map", "[final]", "-map", "1:a?", "-c:a", "copy", "-y"]

/-- Output options passed by the second `part_000` variant (C, line 271). -/
def outputOptionsC : List String := ["-map", "[final]", "-map", "1:a?", "-c:a", "copy", "-y"]

/-- Observable outcome of one upload request: HTTP status, whether the
uploaded video and background files were unlinked, and whether a processed
output file was produced under the processed directory. -/
structure UploadOutcome where
  status : Nat
  videoDeleted : Bool
  backgroundDeleted : Bool
  processedWritten : Bool
deriving DecidableEq

/-- JavaScript truthiness of a request body field: absent or the empty
string is falsy, every other string is truthy. -/
def truthyOpt : Option (List Char) → Bool
  | none => false
  | some s => !s.isEmpty

/-- Upload handler of `server.js` (variant A, lines 119-156).  `err` is a
multer error, `video`/`background` say whether the corresponding file was
uploaded, and `processOk` is the outcome of the external ffmpeg run, which
writes the output file exactly when it succeeds.  On a validation failure
this handler returns 400 without unlinking anything; on success it unlinks
both uploads; in the catch branch it unlinks nothing. -/
def handleUploadA (err video background : Bool)
    (doctorName degree mobile address : Option (List Char))
    (processOk : Bool) : UploadOutcome :=
  if err then ⟨400, false, false, false⟩
  else if !video || !background || !truthyOpt doctorName || !truthyOpt degree
      || !truthyOpt mobile || !truthyOpt address then ⟨400, false, false, false⟩
  else if processOk then ⟨200, true, true, true⟩
  else ⟨500, false, false, false⟩

/-- Upload handler of the `part_000` variants (B lines 135-177, C lines
320-361): a missing video yields 400 with no cleanup; missing text fields
unlink the video and, when present, the background, then yield 400; success
unlinks both; the catch branch unlinks whatever was uploaded. -/
def handleUploadBC (err video background : Bool)
    (doctorName degree mobile address : Option (List Char))
    (processOk : Bool) : UploadOutcome :=
  if err then ⟨400, false, false, false⟩
  else if !video then ⟨400, false, false, false⟩
  else if !truthyOpt doctorName || !truthyOpt degree || !truthyOpt mobile
      || !truthyOpt address then ⟨400, video, background, false⟩
  else if processOk then ⟨200, true, background, true⟩
  else ⟨500, video, background, false⟩

/- ---------------------------------------------------------------- -/
/- Claim theorems. -/

/-- Claim C1, counterexample: the `escapeText` of the first `part_000`
variant (lines 45-50), one of the functions the claim is about, does not
map the line feed to the literal backslash-n pair, and its output contains
unescaped single quote characters (the delimiters it adds), so the claimed
invariant fails on it. -/
theorem c1_counterexample :
    escapeTextB ['\n'] = ['\'', '\n', '\''] ∧ wellEscaped (escapeTextB ['\n']) = false := by
  decide

/-- Claim C1, amended: `escapeText` of `server.js` and of the second
`part_000` variant apply the ordered per-character substitutions with the
backslash doubling first (the `server.js` profile additionally escapes
comma and period), map the line feed to the literal backslash-n pair, and
their outputs never contain an unescaped backslash, colon or single quote;
the first `part_000` variant applies only the backslash, colon and quote
substitutions, leaves line feeds unchanged, and wraps its result in
delimiting single quotes, so only the payload between the delimiters
satisfies the invariant. -/
theorem c1_amended_ok :
    (∀ x l, escapeTextA (x :: l) = escCharA x ++ escapeTextA l)
    ∧ (∀ x l, escapeTextC (x :: l) = escCharC x ++ escapeTextC l)
    ∧ escCharA '\n' = ['\\', 'n'] ∧ escCharC '\n' = ['\\', 'n']
    ∧ (∀ l, wellEscaped (escapeTextA l) = true)
    ∧ (∀ l, wellEscaped (escapeTextC l) = true)
    ∧ (∀ l, escapeTextB l = ['\''] ++ escBodyB l ++ ['\''])
    ∧ (∀ x l, escBodyB (x :: l) = escCharB x ++ escBodyB l)
    ∧ (∀ l, wellEscaped (escBodyB l) = true) :=
  ⟨escapeTextA_cons, escapeTextC_cons, by decide, by decide,
    wellEscaped_escapeTextA, wellEscaped_escapeTextC,
    fun l => by simp [escapeTextB],
    escBodyB_cons, wellEscaped_escBodyB⟩

/-- Claim C2, counterexample: in the second `part_000` variant the escaped
text block is used directly, so for concrete fields its first character is
the letter D of the Doctor label, not a single quote — the block is not
wrapped in single quotes there. -/
theorem c2_counterexample :
    (buildTextBlockC [] [] [] []).headI ≠ '\'' := by
  decide

/-- Claim C2, amended: all three variants produce the labeled lines
wrapped independently at the configured width and joined by line feeds in
the order name, mobile, address, degree, then escape the concatenation as
a whole; the `server.js` variant and the first `part_000` variant wrap the
escaped result in single quotes, while the second `part_000` variant uses
the escaped concatenation without surrounding quotes. -/
theorem c2_amended_ok : ∀ doctorName degree mobile address : List Char,
    buildTextBlockA doctorName degree mobile address
      = ['\''] ++ escapeTextA (specTextBlockCore 30 doctorName degree mobile address) ++ ['\'']
    ∧ buildTextBlockB doctorName degree mobile address
      = ['\''] ++ escBodyB (specTextBlockCore 50 doctorName degree mobile address) ++ ['\'']
    ∧ buildTextBlockC doctorName degree mobile address
      = escapeTextC (specTextBlockCore 30 doctorName degree mobile address) := by
  intro d g m a
  refine ⟨?_, ?_, ?_⟩
  · simp only [buildTextBlockA, specTextBlockCore, wrapTextA_eq_wrapTextB,
      wrapTextB_eq_wrapTextSpec]
  · simp only [buildTextBlockB, escapeTextB, specTextBlockCore, wrapTextB_eq_wrapTextSpec]
    simp
  · simp only [buildTextBlockC, specTextBlockCore, wrapTextB_eq_wrapTextSpec]

/-- Claim C3: the two wrap implementations — the one testing the length of
the concatenation and the one summing the lengths — agree on every input
and width, and both coincide with the wrap built from the single spec rule
that a token is appended iff the current line length plus one plus the
token length stays within the width. -/
theorem c3_equiv : ∀ (maxLength : Nat) (text : List Char),
    wrapTextA maxLength text = wrapTextB maxLength text
    ∧ wrapTextB maxLength text = wrapTextSpec maxLength text :=
  fun m t => ⟨wrapTextA_eq_wrapTextB m t, wrapTextB_eq_wrapTextSpec m t⟩

/-- Claim C4: feeding the output of `escapeText` (the `server.js` variant
and the newline-escaping `part_000` variant) through the consumer decoding
that maps each backslash-introduced pair back to its source character
recovers the input exactly, so both escapes are injective. -/
theorem c4_roundtrip : ∀ l1 l2 : List Char,
    unescape (escapeTextA l1) = l1
    ∧ unescape (escapeTextC l1) = l1
    ∧ (escapeTextA l1 = escapeTextA l2 → l1 = l2)
    ∧ (escapeTextC l1 = escapeTextC l2 → l1 = l2) := by
  intro l1 l2
  refine ⟨unescape_escapeTextA l1, unescape_escapeTextC l1, ?_, ?_⟩
  · intro h
    rw [← unescape_escapeTextA l1, h, unescape_escapeTextA l2]
  · intro h
    rw [← unescape_escapeTextC l1, h, unescape_escapeTextC l2]

/-- Claim C4, witness: the roundtrip and injectivity at a concrete input
mixing backslash, colon, quote and newline. -/
theorem c4_witness :
    unescape (escapeTextA ['\\', ':', '\'', '\n']) = ['\\', ':', '\'', '\n']
    ∧ (['\\', ':'] : List Char) = ['\\', ':'] :=
  ⟨(c4_roundtrip ['\\', ':', '\'', '\n'] []).1,
    (c4_roundtrip ['\\', ':'] ['\\', ':']).2.2.1 rfl⟩

/-- Claim C5, counterexample: in `server.js`, a request with both files
uploaded but the address field missing is answered with 400 while neither
uploaded file is removed, contradicting the claim that uploaded files are
removed on validation failure. -/
theorem c5_counterexample :
    handleUploadA false true true (some ['J']) (some ['M']) (some ['5']) none true
      = ⟨400, false, false, false⟩ := by
  decide

/-- Claim C5, amended: every variant answers a request missing a required
text field or the video file with 400 and writes nothing under the
processed directory; the `part_000` variants additionally remove the
uploaded video and any uploaded background when a text field is missing
(a missing video is answered before any cleanup), while the `server.js`
variant retains the uploads on every validation failure. -/
theorem c5_amended_ok : ∀ (err video bg : Bool)
    (d g m a : Option (List Char)) (pOk : Bool),
    ((handleUploadA err video bg d g m a pOk).status = 400 →
      handleUploadA err video bg d g m a pOk = ⟨400, false, false, false⟩)
    ∧ ((handleUploadBC err video bg d g m a pOk).status = 400 →
      (handleUploadBC err video bg d g m a pOk).processedWritten = false)
    ∧ (err = false → video = false →
      handleUploadBC err video bg d g m a pOk = ⟨400, false, false, false⟩)
    ∧ (err = false → video = true →
      (truthyOpt d = false ∨ truthyOpt g = false ∨ truthyOpt m = false
        ∨ truthyOpt a = false) →
      handleUploadBC err video bg d g m a pOk = ⟨400, true, bg, false⟩)
    ∧ (err = false → (video = false ∨ bg = false ∨ truthyOpt d = false
        ∨ truthyOpt g = false ∨ truthyOpt m = false ∨ truthyOpt a = false) →
      handleUploadA err video bg d g m a pOk = ⟨400, false, false, false⟩) := by
  intro err video bg d g m a pOk
  refine ⟨?_, ?_, ?_, ?_, ?_⟩
  · unfold handleUploadA
    split_ifs <;> simp
  · unfold handleUploadBC
    split_ifs <;> simp
  · intro he hv
    subst he
    subst hv
    simp [handleUploadBC]
  · intro he hv hd
    subst he
    subst hv
    rcases hd with h | h | h | h <;> simp [handleUploadBC, h]
  · intro he hd
    subst he
    rcases hd with h | h | h | h | h | h <;> simp [handleUploadA, h]

/-- Claim C5, amended, witness: three concrete requests evaluated through
the amended theorem — a missing video, a missing mobile field, and a
missing address field, the latter two with both files present. -/
theorem c5_amended_witness :
    handleUploadBC false false true (some ['J']) (some ['M']) (some ['5']) (some ['X']) true
      = ⟨400, false, false, false⟩
    ∧ handleUploadBC false true true (some ['J']) (some ['M']) none (some ['X']) true
      = ⟨400, true, true, false⟩
    ∧ handleUploadBC false true true (some ['J']) (some ['M']) (some ['5']) none true
      = ⟨400, true, true, false⟩ :=
  ⟨(c5_amended_ok false false true (some ['J']) (some ['M']) (some ['5']) (some ['X'])
      true).2.2.1 rfl rfl,
    (c5_amended_ok false true true (some ['J']) (some ['M']) none (some ['X'])
      true).2.2.2.1 rfl rfl (Or.inr (Or.inr (Or.inl rfl))),
    (c5_amended_ok false true true (some ['J']) (some ['M']) (some ['5']) none
      true).2.2.2.1 rfl rfl (Or.inr (Or.inr (Or.inr rfl)))⟩

/-- Claim C6: an input strictly shorter than the wrap width is returned
unchanged by both wrap implementations, with no inserted line break. -/
theorem c6_short_unchanged : ∀ (maxLength : Nat) (text : List Char),
    text.length < maxLength →
    wrapTextA maxLength text = text ∧ wrapTextB maxLength text = text := by
  intro maxLength text h
  have hB : wrapTextB maxLength text = text := by
    rw [wrapTextB]
    cases hs : splitSp text with
    | nil => exact absurd hs (splitSp_ne_nil text)
    | cons w ws =>
      have hjoin : joinWith ' ' (w :: ws) = text := by
        rw [← hs]
        exact joinWith_splitSp text
      have hlen : (joinWith ' ' (w :: ws)).length ≤ maxLength := by
        rw [hjoin]
        omega
      show joinWith '\n' (wrapLoopB maxLength ws w) = text
      rw [wrapLoopB_fits maxLength ws w hlen]
      exact hjoin
  exact ⟨by rw [wrapTextA_eq_wrapTextB]; exact hB, hB⟩

/-- Claim C6, witness: a concrete short input is returned unchanged. -/
theorem c6_witness :
    ("hi a".toList.length < 30)
    ∧ (wrapTextA 30 "hi a".toList = "hi a".toList ∧ wrapTextB 30 "hi a".toList = "hi a".toList) :=
  ⟨by decide, c6_short_unchanged 30 "hi a".toList (by decide)⟩

/-- Claim C7: for every width and input, both wrap variants agree, the
output is the newline join of lines that are each the space join of a
group of consecutive tokens, the groups concatenate back to exactly the
token list of the input (so no token is ever broken internally), and the
output starts with the first token unconditionally. -/
theorem c7_token_integrity : ∀ (maxLength : Nat) (text : List Char),
    wrapTextA maxLength text = wrapTextB maxLength text
    ∧ wrapTextB maxLength text = joinWith '\n'
        ((wrapGroupsLoop maxLength (splitSp text).tail [(splitSp text).headI]).map (joinWith ' '))
    ∧ (wrapGroupsLoop maxLength (splitSp text).tail [(splitSp text).headI]).flatten = splitSp text
    ∧ (wrapTextB maxLength text).take (splitSp text).headI.length = (splitSp text).headI := by
  intro maxLength text
  obtain ⟨w, ws, hs⟩ : ∃ w ws, splitSp text = w :: ws := by
    cases h' : splitSp text with
    | nil => exact absurd h' (splitSp_ne_nil text)
    | cons x y => exact ⟨x, y, rfl⟩
  refine ⟨wrapTextA_eq_wrapTextB maxLength text, ?_, ?_, ?_⟩
  · rw [wrapTextB, hs]
    simp only [List.headI_cons, List.tail_cons]
    show joinWith '\n' (wrapLoopB maxLength ws w) = _
    exact congrArg (joinWith '\n') (wrapLoopB_eq_groups maxLength ws [w] (by simp))
  · rw [hs]
    simp only [List.headI_cons, List.tail_cons]
    rw [wrapGroupsLoop_flatten]
    rfl
  · rw [wrapTextB, hs]
    simp only [List.headI_cons, List.tail_cons]
    show (joinWith '\n' (wrapLoopB maxLength ws w)).take w.length = w
    exact wrapLoopB_take maxLength ws w

/-- Claim C8: splitting the empty input on spaces yields exactly one empty
token, and both wrap implementations return the empty string on it, for
every width. -/
theorem c8_empty_input : ∀ maxLength : Nat,
    splitSp [] = [[]] ∧ wrapTextA maxLength [] = [] ∧ wrapTextB maxLength [] = [] :=
  fun _ => ⟨rfl, rfl, rfl⟩

/-- Claim C9: all three variants pass exactly the claimed ordered output
option list — map the final buffer, optionally map the audio of the second
input, copy audio, overwrite. -/
theorem c9_output_options :
    outputOptionsA = ["-map", "[final]", "-map", "1:a?", "-c:a", "copy", "-y"]
    ∧ outputOptionsB = outputOptionsA ∧ outputOptionsC = outputOptionsA :=
  ⟨rfl, rfl, rfl⟩

/-- Claim C10, counterexample: an input consisting of a lone line feed is
a single token, so the wrap output equals the input; replacing its line
feed by a space then yields a space, not the original input. -/
theorem c10_counterexample :
    replaceChar '\n' [' '] (wrapTextB 30 ['\n']) ≠ ['\n'] := by
  decide

/-- Claim C10, amended: for every width and every input that contains no
line feed character, replacing each line feed of the wrap output by a
single space recovers the input exactly, for both wrap variants. -/
theorem c10_amended_ok : ∀ (maxLength : Nat) (text : List Char),
    '\n' ∉ text →
    replaceChar '\n' [' '] (wrapTextA maxLength text) = text
    ∧ replaceChar '\n' [' '] (wrapTextB maxLength text) = text := by
  intro maxLength text h
  have hB : replaceChar '\n' [' '] (wrapTextB maxLength text) = text := by
    obtain ⟨w, ws, hs⟩ : ∃ w ws, splitSp text = w :: ws := by
      cases h' : splitSp text with
      | nil => exact absurd h' (splitSp_ne_nil text)
      | cons x y => exact ⟨x, y, rfl⟩
    rw [wrapTextB, hs]
    show replaceChar '\n' [' '] (joinWith '\n' (wrapLoopB maxLength ws w)) = text
    have hw : '\n' ∉ w := by
      intro hm
      exact h (splitSp_chars text w (by rw [hs]; exact List.mem_cons_self w ws) '\n' hm)
    have hws : ∀ v ∈ ws, '\n' ∉ v := by
      intro v hv hm
      exact h (splitSp_chars text v (by rw [hs]; exact List.mem_cons_of_mem w hv) '\n' hm)
    rw [replace_joinNl _ (wrapLoopB_lines_no_nl maxLength ws w hw hws), joinSpace_wrapLoopB]
    rw [← hs]
    exact joinWith_splitSp text
  exact ⟨by rw [wrapTextA_eq_wrapTextB]; exact hB, hB⟩

/-- Claim C10, amended, witness: a concrete newline-free input wrapped at
width 3 is recovered after replacing line feeds by spaces. -/
theorem c10_amended_witness :
    ('\n' ∉ "ab cd".toList)
    ∧ (replaceChar '\n' [' '] (wrapTextA 3 "ab cd".toList) = "ab cd".toList
      ∧ replaceChar '\n' [' '] (wrapTextB 3 "ab cd".toList) = "ab cd".toList) :=
  ⟨by decide, c10_amended_ok 3 "ab cd".toList (by decide)⟩
